import Mathlib

/-!
Verification of the window-optimisation pipeline (`ml_otimizador_janela.py`)
against its natural-language specification.

The Python program is embedded shallowly:
* a pandas cell holding a float is `Option Fv` (`none` = NaN; `Fv` is a
  finite rational or ±infinity, mirroring IEEE special values the code
  explicitly handles);
* dates are modelled post-coercion: `pd.to_datetime(..., errors='coerce')`
  yields either a valid timestamp (`some` day number) or NaT (`none`);
* the learned classifier (XGBoost) is an opaque external collaborator and is
  passed in as a function producing predictions and probabilities;
* the per-column standardiser (sklearn's `StandardScaler`) is likewise an
  opaque external collaborator: the pandas assignment
  `df[cols] = scaler.fit_transform(...)` replaces only the selected feature
  cells and structurally preserves every other column and the row count,
  which the embedding reproduces by construction.
-/

set_option maxRecDepth 100000

namespace MLJanela

/-- A present float value: finite rational, +infinity or -infinity. -/
inductive Fv where
  | fin (q : ℚ)
  | top
  | bot
deriving DecidableEq, Repr

/-- Float `<` on present values (IEEE order on finite/±inf). -/
def fvLtB : Fv → Fv → Bool
  | .fin a, .fin b => a < b
  | .fin _, .top => true
  | .bot, .fin _ => true
  | .bot, .top => true
  | _, _ => false

/-- Pandas `x > y` on possibly-missing cells: any comparison with NaN is
false, otherwise float order. Used for `shift(-1) > df[..]`. -/
def cellGt : Option Fv → Option Fv → Bool
  | some a, some b => fvLtB b a
  | _, _ => false

/-- One raw CSV row after date coercion: coerced date (NaT = `none`),
instrument ticker, adjusted close cell, and the feature cells by column
name. -/
structure Row where
  date : Option ℤ
  ticker : String
  adjClose : Option Fv
  feats : List (String × Option Fv)
deriving DecidableEq, Repr

/-- A raw dataframe: its feature column names and its rows. -/
structure DataFrame where
  cols : List String
  rows : List Row
deriving DecidableEq, Repr

/-- Value of feature column `c` in row `r` (missing column reads as NaN). -/
def featVal (r : Row) (c : String) : Option Fv :=
  ((r.feats.lookup c).getD none)

/-- `features_validas = [f for f in features if f in df.columns]`. -/
def featuresValidas (df : DataFrame) (features : List String) : List String :=
  features.filter (fun f => decide (f ∈ df.cols))

/-- Row survives `df.dropna(subset=features_validas + ['Adj Close'])`. -/
def rowComplete (validas : List String) (r : Row) : Bool :=
  r.adjClose.isSome && validas.all (fun c => (featVal r c).isSome)

/-- Row has a ±infinity among the valid feature cells. -/
def hasInfVal (validas : List String) (r : Row) : Bool :=
  validas.any (fun c => featVal r c == some Fv.top || featVal r c == some Fv.bot)

/-- The infinite-value treatment: if any valid-feature cell is ±infinity,
replace those by NaN and re-drop, which amounts to dropping exactly the rows
with an infinite valid-feature cell; otherwise the frame is untouched. -/
def dropInf (validas : List String) (rows : List Row) : List Row :=
  if rows.any (hasInfVal validas) then rows.filter (fun r => !hasInfVal validas r)
  else rows

/-- Map with the element's position, used to model a column-wise pandas
assignment. -/
def mapWithIndex (f : ℕ → Row → Row) : ℕ → List Row → List Row
  | _, [] => []
  | i, r :: rs => f i r :: mapWithIndex f (i + 1) rs

/-- `df[features_validas] = StandardScaler().fit_transform(df[features_validas])`
(guarded by `len(df) > 0 and len(features_validas) > 0`):
each valid feature cell of row `i` is replaced by the scaler's output for
that column at that row; dates, tickers, prices and the row count are
preserved by construction of the assignment. `stdCol` is the opaque
external scaler: given a full column and a row index it yields the scaled
cell. -/
def standardize (stdCol : List (Option Fv) → ℕ → Option Fv)
    (validas : List String) (rows : List Row) : List Row :=
  if 0 < rows.length ∧ 0 < validas.length then
    mapWithIndex
      (fun i r =>
        { r with feats := r.feats.map (fun nv =>
            if nv.1 ∈ validas then (nv.1, stdCol (rows.map (fun x => featVal x nv.1)) i)
            else nv) }) 0 rows
  else rows

/-- First later row of the same ticker: the value
`df.groupby('Ticker')['Adj Close'].shift(-1)` reads at a given row is the
adjusted close of the next row of the same group in frame order. -/
def nextSameTicker (t : String) (rest : List Row) : Option Row :=
  rest.find? (fun x => x.ticker == t)

/-- A prepared row: the surviving cells plus the binary `Target` column. -/
structure PRow where
  date : Option ℤ
  ticker : String
  adjClose : Option Fv
  feats : List (String × Option Fv)
  target : ℕ
deriving DecidableEq, Repr

/-- `Target` of one row given the remainder of the frame:
`(groupby('Ticker')['Adj Close'].shift(-1) > df['Adj Close']).astype(int)`;
the shifted cell is NaN when the group has no later row, and a NaN
comparison is false, hence 0. -/
def targetOf (r : Row) (rest : List Row) : ℕ :=
  if cellGt ((nextSameTicker r.ticker rest).bind Row.adjClose) r.adjClose then 1 else 0

/-- Adds the `Target` column to every row (no row is added or removed). -/
def addTarget : List Row → List PRow
  | [] => []
  | r :: rs => ⟨r.date, r.ticker, r.adjClose, r.feats, targetOf r rs⟩ :: addTarget rs

/-- `preparar_dados`: date coercion is already reflected in `Row.date`;
validate features, drop incomplete rows, drop infinite rows, standardize,
and add the `Target` label. Returns the prepared rows and the valid
features, exactly as the Python function returns `(df, features_validas)`. -/
def preparar_dados (df : DataFrame) (features : List String)
    (stdCol : List (Option Fv) → ℕ → Option Fv) : List PRow × List String :=
  let validas := featuresValidas df features
  let r1 := df.rows.filter (rowComplete validas)
  let r2 := dropInf validas r1
  let r3 := standardize stdCol validas r2
  (addTarget r3, validas)

/-- `formatar_nome_janela`. -/
def formatar_nome_janela (meses : ℕ) : String :=
  if 12 ≤ meses then toString (meses / 12) ++ "a"
  else toString meses ++ "m"

/-- `df['Date'].max()` — NaT entries are skipped; `none` when no valid date. -/
def maxDate (rows : List PRow) : Option ℤ :=
  rows.foldl
    (fun acc r =>
      match r.date, acc with
      | some d, some m => some (max m d)
      | some d, none => some d
      | none, a => a) none

/-- `df_recente = df[df['Date'] >= df['Date'].max() - timedelta(days=30*meses)]`.
A NaT date compares false; if the maximum itself is NaT every comparison is
false and the restriction is empty. -/
def dfRecente (rows : List PRow) (meses : ℕ) : List PRow :=
  match maxDate rows with
  | none => []
  | some m =>
      rows.filter (fun r =>
        match r.date with
        | some d => decide (m - 30 * (meses : ℤ) ≤ d)
        | none => false)

/-- `sklearn.metrics.accuracy_score`: fraction of agreeing labels. -/
def accuracy_score (yTrue yPred : List ℕ) : ℚ :=
  (((yTrue.zip yPred).countP (fun ab => ab.1 == ab.2) : ℚ)) / ((yTrue.length : ℚ))

/-- `sklearn.metrics.f1_score` for the positive class, with the library's
zero-division default of 0. -/
def f1_score (yTrue yPred : List ℕ) : ℚ :=
  let pairs := yTrue.zip yPred
  let tp := pairs.countP (fun ab => ab.1 == 1 && ab.2 == 1)
  let fp := pairs.countP (fun ab => ab.1 != 1 && ab.2 == 1)
  let fn := pairs.countP (fun ab => ab.1 == 1 && ab.2 != 1)
  if 2 * tp + fp + fn == 0 then 0
  else ((2 * tp : ℚ)) / ((2 * tp + fp + fn : ℚ))

/-- The message of the ValueError `sklearn.metrics.roc_auc_score` raises when
the true labels contain a single class. -/
def rocSingleClassMsg : String :=
  "Only one class present in y_true. ROC AUC score is not defined in that case."

/-- `sklearn.metrics.roc_auc_score(y_true, probs)`: raises when `y_true`
holds one class only; otherwise the Mann-Whitney rank statistic (probability
that a random positive is scored above a random negative, counting ties as
one half). -/
def roc_auc_score (yTrue : List ℕ) (probs : List ℚ) : Except String ℚ :=
  let pairs := yTrue.zip probs
  let pos := (pairs.filter (fun ab => ab.1 == 1)).map (fun ab => ab.2)
  let neg := (pairs.filter (fun ab => ab.1 != 1)).map (fun ab => ab.2)
  if pos.isEmpty || neg.isEmpty then Except.error rocSingleClassMsg
  else
    Except.ok
      (((pos.map (fun p =>
          ((neg.countP (fun n => n < p) : ℚ)) +
            ((neg.countP (fun n => n == p) : ℚ)) / 2)).sum) /
        ((pos.length * neg.length : ℕ) : ℚ))

/-- The opaque trained classifier: given the feature names, the training
rows and the test rows, produce the predicted labels and the positive-class
probabilities on the test rows (`model.predict` / `model.predict_proba[:,1]`).
All stochastic internals are seeded, so this is a pure function. -/
def FitPredict : Type :=
  List String → List PRow → List PRow → List ℕ × List ℚ

/-- The body of `treinar_avaliar` past the sample-count guard: split the
restricted rows 80/20 without shuffling (test = most recent fifth, sklearn's
`ceil(0.2 n)`), fit the opaque classifier, and score. An exception raised by
`roc_auc_score` on a single-class test slice propagates as `Except.error`.
The triple is `(acc, f1, roc)` in the Python return order. -/
def treinar_core (recente : List PRow) (features : List String)
    (fp : FitPredict) : Except String (ℚ × ℚ × ℚ) :=
  let nTest := (recente.length + 4) / 5
  let nTrain := recente.length - nTest
  let trainRows := recente.take nTrain
  let testRows := recente.drop nTrain
  let pr := fp features trainRows testRows
  let yTest := testRows.map PRow.target
  let acc := accuracy_score yTest pr.1
  let f1 := f1_score yTest pr.1
  match roc_auc_score yTest pr.2 with
  | Except.error e => Except.error e
  | Except.ok roc => Except.ok (acc, f1, roc)

/-- `treinar_avaliar(df, features, meses_retroativos, min_amostras=100)`:
restrict to the trailing window; below `min_amostras` rows return the
insufficient triple `(None, None, None)`; otherwise train and score on the
restricted rows (`treinar_core`), propagating any exception. -/
def treinar_avaliar (rows : List PRow) (features : List String) (meses : ℕ)
    (min_amostras : ℕ) (fp : FitPredict) :
    Except String (Option ℚ × Option ℚ × Option ℚ) :=
  let recente := dfRecente rows meses
  if recente.length < min_amostras then Except.ok (none, none, none)
  else
    match treinar_core recente features fp with
    | Except.error e => Except.error e
    | Except.ok t => Except.ok (some t.1, some t.2.1, some t.2.2)

/-- The candidate windows `janelas_meses = [3, 6, 9, 12, 24, 36]`. -/
def janelas_meses : List ℕ := [3, 6, 9, 12, 24, 36]

/-- The per-dataset best tracker: `melhor_roc = melhor_acc = melhor_f1 = 0`,
`melhor_janela = None`. -/
structure Best where
  melhor_roc : ℚ
  melhor_acc : ℚ
  melhor_f1 : ℚ
  melhor_janela : Option String
deriving DecidableEq, Repr

/-- Initial tracker state. -/
def bestInit : Best := ⟨0, 0, 0, none⟩

/-- `if roc is not None and roc > melhor_roc:` update all four fields from
the current evaluation. The triple arrives in the return order
`(acc, f1, roc)`; in every reachable call the accuracy and F1 are present
whenever the ROC is, so the fallback defaults are never consulted. -/
def passo_janela (b : Best) (res : Option ℚ × Option ℚ × Option ℚ)
    (lbl : String) : Best :=
  match res.2.2 with
  | none => b
  | some r =>
      if b.melhor_roc < r then
        ⟨r, res.1.getD b.melhor_acc, res.2.1.getD b.melhor_f1, some lbl⟩
      else b

/-- One row of `todas_metricas`. -/
structure WindowMetric where
  dataset : String
  janela : String
  roc_auc : Option ℚ
  accuracy : Option ℚ
  f1_sc : Option ℚ
deriving DecidableEq, Repr

/-- One row of `resultados` (the best-window table); each cell is a value or
an absent (None/NaN) entry. -/
structure BestRow where
  dataset : String
  melhor_janela : Option String
  melhor_roc : Option ℚ
  melhor_acc : Option ℚ
  melhor_f1 : Option ℚ
deriving DecidableEq, Repr

/-- The inner `for meses in janelas_meses` loop of the main block: evaluate
each window, append one `WindowMetric` row, update the tracker. An exception
from `treinar_avaliar` ends the loop at once (the per-dataset `except`):
rows appended for earlier windows survive, the flag records whether the loop
completed. -/
def varrer_janelas (name : String) (rows : List PRow) (feats : List String)
    (fp : FitPredict) : List ℕ → Best → List WindowMetric × Best × Bool
  | [], b => ([], b, true)
  | meses :: resto, b =>
      match treinar_avaliar rows feats meses 100 fp with
      | Except.error _ => ([], b, false)
      | Except.ok res =>
          let lbl := formatar_nome_janela meses
          let m : WindowMetric := ⟨name, lbl, res.2.2, res.1, res.2.1⟩
          let b' := passo_janela b res lbl
          let rec' := varrer_janelas name rows feats fp resto b'
          (m :: rec'.1, rec'.2)

/-- One dataset file together with its parsed dataframe. -/
structure Dataset where
  name : String
  df : DataFrame
deriving Repr

/-- Processing of one dataset inside the per-file `try`: prepare, skip when
no valid features or no rows remain, sweep the windows, and append the best
row only when the sweep completed without an exception. Returns the
`WindowMetric` rows this dataset contributed and the optional `BestRow`. -/
def processar_dataset (ds : Dataset) (features : List String)
    (stdCol : List (Option Fv) → ℕ → Option Fv) (fp : FitPredict)
    (janelas : List ℕ) : List WindowMetric × Option BestRow :=
  if (preparar_dados ds.df features stdCol).2.length = 0 ∨
      (preparar_dados ds.df features stdCol).1.length = 0 then ([], none)
  else if (varrer_janelas ds.name (preparar_dados ds.df features stdCol).1
      (preparar_dados ds.df features stdCol).2 fp janelas bestInit).2.2 then
    ((varrer_janelas ds.name (preparar_dados ds.df features stdCol).1
        (preparar_dados ds.df features stdCol).2 fp janelas bestInit).1,
     some ⟨ds.name,
       (varrer_janelas ds.name (preparar_dados ds.df features stdCol).1
         (preparar_dados ds.df features stdCol).2 fp janelas bestInit).2.1.melhor_janela,
       some (varrer_janelas ds.name (preparar_dados ds.df features stdCol).1
         (preparar_dados ds.df features stdCol).2 fp janelas bestInit).2.1.melhor_roc,
       some (varrer_janelas ds.name (preparar_dados ds.df features stdCol).1
         (preparar_dados ds.df features stdCol).2 fp janelas bestInit).2.1.melhor_acc,
       some (varrer_janelas ds.name (preparar_dados ds.df features stdCol).1
         (preparar_dados ds.df features stdCol).2 fp janelas bestInit).2.1.melhor_f1⟩)
  else
    ((varrer_janelas ds.name (preparar_dados ds.df features stdCol).1
        (preparar_dados ds.df features stdCol).2 fp janelas bestInit).1, none)

/-- The main sweep over the dataset files: a file without an entry in
`features_especificas` is skipped; otherwise its contribution is appended in
file order. Returns `(resultados, todas_metricas)`. -/
def runSweep (stdCol : List (Option Fv) → ℕ → Option Fv) (fp : FitPredict)
    (janelas : List ℕ) (fmap : List (String × List String)) :
    List Dataset → List BestRow × List WindowMetric
  | [] => ([], [])
  | d :: rest =>
      match fmap.lookup d.name with
      | none => runSweep stdCol fp janelas fmap rest
      | some feats =>
          ((processar_dataset d feats stdCol fp janelas).2.toList
              ++ (runSweep stdCol fp janelas fmap rest).1,
           (processar_dataset d feats stdCol fp janelas).1
              ++ (runSweep stdCol fp janelas fmap rest).2)

/-- Spec-side definition (follows the specification's words, for comparison
with the code's `Target`): the candidate "next chronological observations" of
row `r` — rows of the same instrument group whose parsed date is strictly
later than `r`'s. A row with no parsed date has no chronological successor. -/
def chronCandidates (rows : List PRow) (r : PRow) : List PRow :=
  match r.date with
  | none => []
  | some d =>
      rows.filter (fun x =>
        x.ticker == r.ticker &&
          (match x.date with
           | some d2 => decide (d < d2)
           | none => false))

/-- Spec-side definition: the chronologically next observation of `r`'s
group — the candidate with the least date. -/
def proximaCronologica (rows : List PRow) (r : PRow) : Option PRow :=
  match ((chronCandidates rows r).filterMap PRow.date).min? with
  | none => none
  | some d => (chronCandidates rows r).find? (fun x => x.date == some d)

/-- Spec-side definition of the label (§3 of the spec): 1 if the
instrument's next chronological adjusted close is strictly greater than the
current one, else 0. -/
def targetSpecChron (rows : List PRow) (r : PRow) : ℕ :=
  match proximaCronologica rows r with
  | some x => if cellGt x.adjClose r.adjClose then 1 else 0
  | none => 0

/-! Concrete instruments of the external collaborators and small concrete
datasets, used to instantiate the theorems at explicit inputs. -/

deriving instance DecidableEq for Except

/-- A concrete scaler instance: the identity column transform. -/
def stdColId : List (Option Fv) → ℕ → Option Fv := fun vals i => vals.getD i none

/-- A concrete classifier instance: predicts label 0 with probability 0
everywhere. -/
def fpZero : FitPredict := fun _ _ te => (te.map (fun _ => 0), te.map (fun _ => 0))

/-- `a` dated strictly before `b` (both dates parsed). -/
def dateLtB (a b : PRow) : Bool :=
  match a.date, b.date with
  | some da, some db => decide (da < db)
  | _, _ => false

/-- The prepared rows of each instrument group appear in strictly increasing
chronological order (every pair of same-group rows has parsed dates, earlier
row strictly earlier). -/
@[reducible] def GroupSorted (ps : List PRow) : Prop :=
  List.Pairwise (fun a b => a.ticker = b.ticker → dateLtB a b = true) ps

/-- Two-row dataframe, one instrument, chronologically sorted, price rising:
its prepared form keeps both rows, the last one labelled 0. -/
def dfC1 : DataFrame :=
  ⟨["f"],
   [⟨some 1, "A", some (Fv.fin 10), [("f", some (Fv.fin 1))]⟩,
    ⟨some 2, "A", some (Fv.fin 20), [("f", some (Fv.fin 2))]⟩]⟩

/-- One-row dataframe whose single row has an unparsable (coerced-to-NaT)
date but complete feature and price cells. -/
def dfC3 : DataFrame :=
  ⟨["f"], [⟨none, "A", some (Fv.fin 5), [("f", some (Fv.fin 1))]⟩]⟩

/-- Two-row dataframe, one instrument, rows stored in reverse chronological
order (date 2 first, then date 1). -/
def dfC4 : DataFrame :=
  ⟨["f"],
   [⟨some 2, "A", some (Fv.fin 10), [("f", some (Fv.fin 1))]⟩,
    ⟨some 1, "A", some (Fv.fin 20), [("f", some (Fv.fin 1))]⟩]⟩

/-- A single prepared row, used to exercise the evaluator boundary. -/
def rowsC6 : List PRow := [⟨some 0, "A", some (Fv.fin 1), [], 0⟩]

/-- Two prepared rows 40 days apart, used to witness the window superset. -/
def rowsC7 : List PRow :=
  [⟨some 0, "A", some (Fv.fin 1), [], 0⟩, ⟨some (-40), "A", some (Fv.fin 2), [], 0⟩]

/-- A three-row dataset file: far too small for any window, so every
evaluation is insufficient. -/
def dsSmall : Dataset :=
  ⟨"a.csv", ⟨["f"],
    [⟨some 1, "A", some (Fv.fin 1), [("f", some (Fv.fin 1))]⟩,
     ⟨some 2, "A", some (Fv.fin 2), [("f", some (Fv.fin 2))]⟩,
     ⟨some 3, "A", some (Fv.fin 3), [("f", some (Fv.fin 3))]⟩]⟩⟩

/-- A 105-row single-instrument dataframe with constant price: it passes
validation and the 100-sample guard, and every label is 0, so any trained
window has a single-class test slice. -/
def dfBig : DataFrame :=
  ⟨["f"], List.replicate 105 ⟨some 0, "A", some (Fv.fin 1), [("f", some (Fv.fin 1))]⟩⟩

/-- The 105-row dataframe as a dataset file. -/
def dsBig : Dataset := ⟨"big.csv", dfBig⟩

end MLJanela

namespace MLJanela

/-! Structural lemmas about the preparation pipeline. -/

/-- Indexing a `mapWithIndex`. -/
theorem mapWithIndex_getElem? (f : ℕ → Row → Row) :
    ∀ (l : List Row) (n i : ℕ), (mapWithIndex f n l)[i]? = (l[i]?).map (f (n + i)) := by
  intro l
  induction l with
  | nil => intro n i; simp [mapWithIndex]
  | cons r rs ih =>
      intro n i
      cases i with
      | zero => simp [mapWithIndex]
      | succ k =>
          simp only [mapWithIndex, List.getElem?_cons_succ]
          rw [ih (n + 1) k]
          have harith : n + 1 + k = n + (k + 1) := by omega
          rw [harith]

/-- `standardize` preserves the indexing, dates, tickers and prices of its
input rows (only feature cells change). -/
theorem standardize_fields (σ : List (Option Fv) → ℕ → Option Fv)
    (v : List String) (rows : List Row) (i : ℕ) :
    ((standardize σ v rows)[i]?).map (fun r => (r.date, r.ticker, r.adjClose))
      = (rows[i]?).map (fun r => (r.date, r.ticker, r.adjClose)) := by
  unfold standardize
  by_cases h : 0 < rows.length ∧ 0 < v.length
  · rw [if_pos h, mapWithIndex_getElem?]
    cases rows[i]? <;> rfl
  · rw [if_neg h]

/-- `standardize` keeps the row count. -/
theorem standardize_length (σ : List (Option Fv) → ℕ → Option Fv)
    (v : List String) (rows : List Row) :
    (standardize σ v rows).length = rows.length := by
  have hmap : ∀ (n : ℕ) (l : List Row) (f : ℕ → Row → Row),
      (mapWithIndex f n l).length = l.length := by
    intro n l
    induction l generalizing n with
    | nil => intro f; rfl
    | cons r rs ih => intro f; simpa [mapWithIndex] using ih (n + 1) f
  unfold standardize
  by_cases h : 0 < rows.length ∧ 0 < v.length
  · rw [if_pos h]; exact hmap 0 rows _
  · rw [if_neg h]

/-- Indexing `addTarget`: the `i`-th prepared row is the `i`-th surviving
row decorated with the label computed from the remainder of the frame. -/
theorem addTarget_getElem? :
    ∀ (rows : List Row) (i : ℕ),
      (addTarget rows)[i]? = (rows[i]?).map (fun r =>
        (⟨r.date, r.ticker, r.adjClose, r.feats, targetOf r (rows.drop (i + 1))⟩ : PRow)) := by
  intro rows
  induction rows with
  | nil => intro i; rfl
  | cons r rs ih =>
      intro i
      cases i with
      | zero => simp [addTarget]
      | succ k =>
          simp only [addTarget, List.getElem?_cons_succ, List.drop_succ_cons]
          rw [ih k]

/-- Dropping the `Target` column recovers exactly the rows that entered the
labelling step: the label assignment drops no row. -/
theorem addTarget_toRow :
    ∀ rows : List Row,
      (addTarget rows).map (fun p => (⟨p.date, p.ticker, p.adjClose, p.feats⟩ : Row)) = rows := by
  intro rows
  induction rows with
  | nil => rfl
  | cons r rs ih => simpa [addTarget] using ih

/-- `addTarget` commutes with `drop`: a row's label only depends on its own
tail of the frame. -/
theorem addTarget_drop :
    ∀ (rows : List Row) (k : ℕ), (addTarget rows).drop k = addTarget (rows.drop k) := by
  intro rows
  induction rows with
  | nil => intro k; cases k <;> rfl
  | cons r rs ih =>
      intro k
      cases k with
      | zero => rfl
      | succ n => simpa [addTarget] using ih n

/-- The next-in-group adjusted close read through the decorated rows agrees
with the one read through the raw rows. -/
theorem addTarget_find_adj (t : String) :
    ∀ rows : List Row,
      (((addTarget rows).find? (fun x => x.ticker == t)).bind PRow.adjClose)
        = ((rows.find? (fun x => x.ticker == t)).bind Row.adjClose) := by
  intro rows
  induction rows with
  | nil => rfl
  | cons r rs ih =>
      by_cases h : (r.ticker == t) = true
      · simp [addTarget, List.find?, h]
      · have hb : (r.ticker == t) = false := by
          cases hbv : (r.ticker == t) with
          | true => exact absurd hbv h
          | false => rfl
        simpa [addTarget, List.find?, hb] using ih

/-- Closed form of a prepared row's label: 1 exactly when the next row of
the same group further down the prepared frame has a strictly greater
adjusted close (a missing comparison yields 0). -/
theorem prepared_target (rows : List Row) (i : ℕ) (p : PRow)
    (h : (addTarget rows)[i]? = some p) :
    p.target =
      (if cellGt ((((addTarget rows).drop (i + 1)).find? (fun x => x.ticker == p.ticker)).bind
          PRow.adjClose) p.adjClose then 1 else 0) := by
  rw [addTarget_getElem?] at h
  cases hr : rows[i]? with
  | none => rw [hr] at h; exact absurd h (by simp)
  | some r =>
      rw [hr] at h
      have hp : p = ⟨r.date, r.ticker, r.adjClose, r.feats, targetOf r (rows.drop (i + 1))⟩ :=
        (Option.some.inj h).symm
      subst hp
      show targetOf r (rows.drop (i + 1)) = _
      rw [addTarget_drop, addTarget_find_adj]
      rfl

/-- `find?` returns the first match: there is an index holding the result,
and every earlier entry fails the predicate. -/
theorem find?_first_index {α : Type} (p : α → Bool) :
    ∀ (l : List α) (x : α), l.find? p = some x →
      ∃ n : ℕ, l[n]? = some x ∧ p x = true ∧
        ∀ (m : ℕ) (y : α), m < n → l[m]? = some y → p y = false := by
  intro l
  induction l with
  | nil => intro x h; exact absurd h (by simp)
  | cons a as ih =>
      intro x h
      by_cases hp : p a = true
      · rw [List.find?_cons_of_pos as hp] at h
        have hax : a = x := Option.some.inj h
        subst hax
        exact ⟨0, by simp, hp, fun m y hm => absurd hm (by omega)⟩
      · rw [List.find?_cons_of_neg as hp] at h
        obtain ⟨n, h1, h2, h3⟩ := ih x h
        refine ⟨n + 1, by simpa using h1, h2, ?_⟩
        intro m y hm hy
        cases m with
        | zero =>
            have hya : y = a := (Option.some.inj (by simpa using hy)).symm
            subst hya
            cases hb : p y with
            | true => exact absurd hb hp
            | false => rfl
        | succ k => exact h3 k y (by omega) (by simpa using hy)

/-- `find?` hits a member that satisfies the predicate uniquely. -/
theorem find?_eq_some_unique {α : Type} (p : α → Bool) :
    ∀ (l : List α) (x : α), x ∈ l → p x = true → (∀ z ∈ l, p z = true → z = x) →
      l.find? p = some x := by
  intro l
  induction l with
  | nil => intro x hx; exact absurd hx (List.not_mem_nil x)
  | cons a as ih =>
      intro x hx hpx huniq
      by_cases hp : p a = true
      · rw [List.find?_cons_of_pos as hp]
        exact congrArg some (huniq a (List.mem_cons_self a as) hp)
      · rw [List.find?_cons_of_neg as hp]
        rcases List.mem_cons.mp hx with hxa | hxas
        · subst hxa; exact absurd hpx hp
        · exact ih x hxas hpx (fun z hz => huniq z (List.mem_cons_of_mem a hz))

/-- A member below all members of an integer list is its `min?`. -/
theorem min?_int_eq_some (l : List ℤ) (a : ℤ) (h1 : a ∈ l) (h2 : ∀ b ∈ l, a ≤ b) :
    l.min? = some a := by
  have hfold : ∀ (xs : List ℤ) (x : ℤ),
      xs.foldl min x ∈ x :: xs ∧ ∀ b ∈ x :: xs, xs.foldl min x ≤ b := by
    intro xs
    induction xs with
    | nil =>
        intro x
        refine ⟨List.mem_cons_self x [], ?_⟩
        intro b hb
        rcases List.mem_cons.mp hb with hbx | hbn
        · exact le_of_eq hbx.symm
        · exact absurd hbn (List.not_mem_nil b)
    | cons y ys ih =>
        intro x
        obtain ⟨hm, hb⟩ := ih (min x y)
        have hfe : (y :: ys).foldl min x = ys.foldl min (min x y) := rfl
        constructor
        · rw [hfe]
          rcases List.mem_cons.mp hm with hh | ht
          · rw [hh]
            rcases min_choice x y with hxy | hxy
            · rw [hxy]; exact List.mem_cons_self x (y :: ys)
            · rw [hxy]; exact List.mem_cons_of_mem x (List.mem_cons_self y ys)
          · exact List.mem_cons_of_mem x (List.mem_cons_of_mem y ht)
        · intro b hbm
          rw [hfe]
          rcases List.mem_cons.mp hbm with hbx | hbyn
          · calc ys.foldl min (min x y) ≤ min x y := hb _ (List.mem_cons_self _ ys)
              _ ≤ x := min_le_left x y
              _ = b := hbx.symm
          · rcases List.mem_cons.mp hbyn with hby | hbys
            · calc ys.foldl min (min x y) ≤ min x y := hb _ (List.mem_cons_self _ ys)
                _ ≤ y := min_le_right x y
                _ = b := hby.symm
            · exact hb b (List.mem_cons_of_mem _ hbys)
  cases l with
  | nil => exact absurd h1 (List.not_mem_nil a)
  | cons c cs =>
      obtain ⟨hm, hbd⟩ := hfold cs c
      have hval : cs.foldl min c = a :=
        le_antisymm (hbd a h1) (h2 _ hm)
      show some (cs.foldl min c) = some a
      rw [hval]

/-- Index form of `GroupSorted`: any two same-group rows at increasing
indices carry parsed, strictly increasing dates. -/
theorem groupSorted_index {ps : List PRow} (hs : GroupSorted ps) {i j : ℕ} {a b : PRow}
    (hij : i < j) (h1 : ps[i]? = some a) (h2 : ps[j]? = some b)
    (ht : a.ticker = b.ticker) :
    ∃ da db, a.date = some da ∧ b.date = some db ∧ da < db := by
  rw [List.getElem?_eq_some] at h1 h2
  obtain ⟨hi, e1⟩ := h1
  obtain ⟨hj, e2⟩ := h2
  have hr := (List.pairwise_iff_getElem.mp hs) i j hi hj hij
  rw [e1, e2] at hr
  have hb := hr ht
  unfold dateLtB at hb
  cases hda : a.date with
  | none => rw [hda] at hb; exact absurd hb (by simp)
  | some da =>
      cases hdb : b.date with
      | none => rw [hda, hdb] at hb; exact absurd hb (by simp)
      | some db =>
          rw [hda, hdb] at hb
          exact ⟨da, db, rfl, rfl, of_decide_eq_true hb⟩

/-- On a group-sorted prepared frame, the code's label formula (next row of
the group in frame order) coincides with the specification's chronological
formula. -/
theorem code_eq_chron (ps : List PRow) (hs : GroupSorted ps) (i : ℕ) (p : PRow)
    (hp : ps[i]? = some p) :
    (if cellGt (((ps.drop (i + 1)).find? (fun x => x.ticker == p.ticker)).bind PRow.adjClose)
        p.adjClose then 1 else 0) = targetSpecChron ps p := by
  have hdropIdx : ∀ k : ℕ, (ps.drop (i + 1))[k]? = ps[(i + 1) + k]? :=
    fun k => List.getElem?_drop ps (i + 1) k
  cases hf : (ps.drop (i + 1)).find? (fun x => x.ticker == p.ticker) with
  | none =>
      have hnone := List.find?_eq_none.mp hf
      have hcand : chronCandidates ps p = [] := by
        unfold chronCandidates
        cases hd : p.date with
        | none => rfl
        | some d =>
            apply List.filter_eq_nil_iff.mpr
            intro z hz hpz
            rw [Bool.and_eq_true] at hpz
            obtain ⟨htz, hdt⟩ := hpz
            obtain ⟨k, hk⟩ := List.mem_iff_getElem?.mp hz
            obtain ⟨dz, hdz, hlt⟩ : ∃ dz, z.date = some dz ∧ d < dz := by
              cases hzz : z.date with
              | none => rw [hzz] at hdt; exact absurd hdt (by simp)
              | some dz => rw [hzz] at hdt; exact ⟨dz, rfl, of_decide_eq_true hdt⟩
            rcases Nat.lt_trichotomy k i with hki | hki | hki
            · obtain ⟨da, db, hda, hdb, hab⟩ :=
                groupSorted_index hs hki hk hp (eq_of_beq htz)
              rw [hd] at hdb
              rw [hda] at hdz
              have e1 := Option.some.inj hdb
              have e2 := Option.some.inj hdz
              omega
            · subst hki
              have hzp : z = p := Option.some.inj (hk.symm.trans hp)
              subst hzp
              rw [hd] at hdz
              have := Option.some.inj hdz
              omega
            · have hk2 : (ps.drop (i + 1))[k - (i + 1)]? = some z := by
                rw [hdropIdx]
                have harith : (i + 1) + (k - (i + 1)) = k := by omega
                rw [harith]
                exact hk
              exact absurd htz (by simpa using hnone z (List.getElem?_mem hk2))
      unfold targetSpecChron proximaCronologica
      rw [hcand]
      rfl
  | some x =>
      obtain ⟨n, hxn, hxp, hfirst⟩ := find?_first_index _ _ _ hf
      rw [hdropIdx] at hxn
      have htik : x.ticker = p.ticker := eq_of_beq hxp
      obtain ⟨dp, dx, hdp, hdx, hdpx⟩ :=
        groupSorted_index hs (by omega : i < (i + 1) + n) hp hxn htik.symm
      have hcandEq : chronCandidates ps p = ps.filter (fun z =>
          z.ticker == p.ticker &&
            (match z.date with
             | some d2 => decide (dp < d2)
             | none => false)) := by
        unfold chronCandidates
        rw [hdp]
      have hxmem : x ∈ chronCandidates ps p := by
        rw [hcandEq]
        refine List.mem_filter.mpr ⟨List.getElem?_mem hxn, ?_⟩
        rw [Bool.and_eq_true]
        exact ⟨hxp, by rw [hdx]; exact decide_eq_true hdpx⟩
      have hanal : ∀ z ∈ chronCandidates ps p,
          ∃ dz, z.date = some dz ∧ dx ≤ dz ∧ (z.date = some dx → z = x) := by
        intro z hz
        rw [hcandEq] at hz
        obtain ⟨hzps, hpz⟩ := List.mem_filter.mp hz
        rw [Bool.and_eq_true] at hpz
        obtain ⟨htz, hdt⟩ := hpz
        obtain ⟨dz, hdz, hlt⟩ : ∃ dz, z.date = some dz ∧ dp < dz := by
          cases hzz : z.date with
          | none => rw [hzz] at hdt; exact absurd hdt (by simp)
          | some dz => rw [hzz] at hdt; exact ⟨dz, rfl, of_decide_eq_true hdt⟩
        obtain ⟨k, hk⟩ := List.mem_iff_getElem?.mp hzps
        rcases Nat.lt_trichotomy k i with hki | hki | hki
        · obtain ⟨da, db, hda, hdb, hab⟩ :=
            groupSorted_index hs hki hk hp (eq_of_beq htz)
          rw [hdp] at hdb
          rw [hda] at hdz
          have e1 := Option.some.inj hdb
          have e2 := Option.some.inj hdz
          omega
        · subst hki
          have hzp : z = p := Option.some.inj (hk.symm.trans hp)
          subst hzp
          rw [hdp] at hdz
          have := Option.some.inj hdz
          omega
        · have hk2 : (ps.drop (i + 1))[k - (i + 1)]? = some z := by
            rw [hdropIdx]
            have harith : (i + 1) + (k - (i + 1)) = k := by omega
            rw [harith]
            exact hk
          rcases Nat.lt_trichotomy (k - (i + 1)) n with hrel | hrel | hrel
          · have := hfirst (k - (i + 1)) z hrel hk2
            rw [htz] at this
            exact absurd this (by simp)
          · have hkeq : (i + 1) + n = k := by omega
            rw [← hkeq] at hk
            have hzx : z = x := Option.some.inj (hk.symm.trans hxn)
            subst hzx
            exact ⟨dx, hdx, le_refl dx, fun _ => rfl⟩
          · have hik : (i + 1) + n < k := by omega
            obtain ⟨da, db, hda, hdb, hab⟩ :=
              groupSorted_index hs hik hxn hk (htik.trans (eq_of_beq htz).symm)
            have e1 : dx = da := Option.some.inj (hdx.symm.trans hda)
            have e2 : dz = db := Option.some.inj (hdz.symm.trans hdb)
            refine ⟨dz, hdz, by omega, ?_⟩
            intro hzdx
            have e3 : dz = dx := Option.some.inj (hdz.symm.trans hzdx)
            exact (by omega : False).elim
      have hmin : ((chronCandidates ps p).filterMap PRow.date).min? = some dx := by
        apply min?_int_eq_some
        · exact List.mem_filterMap.mpr ⟨x, hxmem, hdx⟩
        · intro b hb
          obtain ⟨z, hz, hzb⟩ := List.mem_filterMap.mp hb
          obtain ⟨dz, hdz, hge, _⟩ := hanal z hz
          rw [hdz] at hzb
          exact (Option.some.inj hzb) ▸ hge
      have hfind : (chronCandidates ps p).find? (fun z => z.date == some dx) = some x := by
        apply find?_eq_some_unique _ _ x hxmem
        · rw [hdx]; exact beq_self_eq_true (some dx)
        · intro z hz hzp
          obtain ⟨_, _, _, himp⟩ := hanal z hz
          exact himp (eq_of_beq hzp)
      have hspec : targetSpecChron ps p = if cellGt x.adjClose p.adjClose then 1 else 0 := by
        unfold targetSpecChron proximaCronologica
        rw [hmin]
        show (match (chronCandidates ps p).find? (fun z => z.date == some dx) with
              | some q => if cellGt q.adjClose p.adjClose then 1 else 0
              | none => 0) = _
        rw [hfind]
      rw [hspec]
      rfl

end MLJanela

namespace MLJanela

/-- C7: For any prepared dataset and any two window lengths `w1 < w2`, every
row selected by the trailing-window restriction for `w1` is also selected
for `w2` (the `w2` row set is a superset), both using the same dataset and
the same maximum-date cutoff basis. -/
theorem C7_window_row_superset (rows : List PRow) (w1 w2 : ℕ) (h : w1 < w2) :
    ∀ r ∈ dfRecente rows w1, r ∈ dfRecente rows w2 := by
  intro r hr
  unfold dfRecente at hr ⊢
  cases hm : maxDate rows with
  | none => rw [hm] at hr; exact absurd hr (List.not_mem_nil r)
  | some m =>
      rw [hm] at hr
      have hr1 : r ∈ rows.filter (fun x =>
          match x.date with
          | some d => decide (m - 30 * (w1 : ℤ) ≤ d)
          | none => false) := hr
      show r ∈ rows.filter (fun x =>
          match x.date with
          | some d => decide (m - 30 * (w2 : ℤ) ≤ d)
          | none => false)
      rw [List.mem_filter] at hr1 ⊢
      refine ⟨hr1.1, ?_⟩
      have h2 : (match r.date with
          | some d => decide (m - 30 * (w1 : ℤ) ≤ d)
          | none => false) = true := hr1.2
      show (match r.date with
          | some d => decide (m - 30 * (w2 : ℤ) ≤ d)
          | none => false) = true
      cases hd : r.date with
      | none => rw [hd] at h2; exact absurd h2 (by simp)
      | some d =>
          rw [hd] at h2
          have hle : m - 30 * (w1 : ℤ) ≤ d := by simpa using h2
          have hmono : m - 30 * (w2 : ℤ) ≤ m - 30 * (w1 : ℤ) := by
            have hw : (w1 : ℤ) ≤ (w2 : ℤ) := by exact_mod_cast Nat.le_of_lt h
            linarith
          show decide (m - 30 * (w2 : ℤ) ≤ d) = true
          exact decide_eq_true (le_trans hmono hle)

/-- Witness for C7: with windows 1 < 2 months, the row at the maximum date,
selected by the 1-month restriction, is also selected by the 2-month one. -/
theorem C7_window_row_superset_witness :
    (⟨some 0, "A", some (Fv.fin 1), [], 0⟩ : PRow) ∈ dfRecente rowsC7 2 :=
  C7_window_row_superset rowsC7 1 2 (by decide) _ (by decide)

/-- C9: `formatar_nome_janela` renders any month count ≥ 12 as the floored
year count followed by "a" and any month count < 12 as the month count
followed by "m"; in particular 3↦"3m", 6↦"6m", 12↦"1a", 24↦"2a", 36↦"3a". -/
theorem C9_format_window_label :
    (∀ m : ℕ, 12 ≤ m → formatar_nome_janela m = toString (m / 12) ++ "a") ∧
    (∀ m : ℕ, m < 12 → formatar_nome_janela m = toString m ++ "m") ∧
    formatar_nome_janela 3 = "3m" ∧ formatar_nome_janela 6 = "6m" ∧
    formatar_nome_janela 12 = "1a" ∧ formatar_nome_janela 24 = "2a" ∧
    formatar_nome_janela 36 = "3a" := by
  refine ⟨fun m h => ?_, fun m h => ?_, by decide, by decide, by decide,
    by decide, by decide⟩
  · simp [formatar_nome_janela, h]
  · simp [formatar_nome_janela, Nat.not_le.mpr h]

/-- Witness for C9 at concrete inputs on both branches. -/
theorem C9_format_window_label_witness :
    formatar_nome_janela 24 = toString (24 / 12) ++ "a" ∧
    formatar_nome_janela 6 = toString 6 ++ "m" :=
  ⟨C9_format_window_label.1 24 (by decide), C9_format_window_label.2.1 6 (by decide)⟩

/-- C5: the best tracker starts from ROC-AUC 0 and is updated only when the
window's ROC-AUC is present and strictly greater than the best so far; an
equal (or smaller, or absent) score leaves the tracker unchanged, so the
first-found window wins ties; and when an update happens, the recorded
ROC-AUC, accuracy, F1 and label all come from that same window evaluation. -/
theorem C5_best_tracker_update :
    bestInit.melhor_roc = 0 ∧
    (∀ (b : Best) (acc f1 : Option ℚ) (lbl : String),
      passo_janela b (acc, f1, none) lbl = b) ∧
    (∀ (b : Best) (acc f1 : Option ℚ) (lbl : String) (r : ℚ),
      r ≤ b.melhor_roc → passo_janela b (acc, f1, some r) lbl = b) ∧
    (∀ (b : Best) (a f r : ℚ) (lbl : String),
      b.melhor_roc < r →
        passo_janela b (some a, some f, some r) lbl = ⟨r, a, f, some lbl⟩) := by
  refine ⟨rfl, fun b acc f1 lbl => rfl, fun b acc f1 lbl r h => ?_, fun b a f r lbl h => ?_⟩
  · simp [passo_janela, not_lt.mpr h]
  · simp [passo_janela, h]

/-- Witness for C5: a tied score (0.5 vs current best 0.5) does not replace
the tracker, while a strictly larger one installs the whole evaluation. -/
theorem C5_best_tracker_update_witness :
    passo_janela ⟨1/2, 1/4, 1/4, some ("3m")⟩ (some (1/3), some (1/3), some (1/2)) ("6m")
        = ⟨1/2, 1/4, 1/4, some ("3m")⟩ ∧
    passo_janela bestInit (some (1/3), some (1/3), some (1/2)) ("3m")
        = ⟨1/2, 1/3, 1/3, some ("3m")⟩ :=
  ⟨C5_best_tracker_update.2.2.1 _ (some (1/3)) (some (1/3)) _ (1/2) (by norm_num),
   C5_best_tracker_update.2.2.2 bestInit (1/3) (1/3) (1/2) _ (by norm_num [bestInit])⟩

/-- C6: `treinar_avaliar` returns the insufficient triple (all three metrics
absent) exactly when the count of rows at or after the cutoff is strictly
below `min_amostras`; at or above the boundary it proceeds to train and
either yields three present metrics or propagates an exception, never the
insufficient triple. -/
theorem C6_insufficient_iff (rows : List PRow) (features : List String)
    (meses min_amostras : ℕ) (fp : FitPredict) :
    (treinar_avaliar rows features meses min_amostras fp = Except.ok (none, none, none)
      ↔ (dfRecente rows meses).length < min_amostras) ∧
    (min_amostras ≤ (dfRecente rows meses).length →
      (∃ a f r : ℚ, treinar_avaliar rows features meses min_amostras fp
          = Except.ok (some a, some f, some r)) ∨
      (∃ e : String, treinar_avaliar rows features meses min_amostras fp
          = Except.error e)) := by
  unfold treinar_avaliar
  by_cases hlt : (dfRecente rows meses).length < min_amostras
  · constructor
    · simp [hlt]
    · intro hge; exact absurd hlt (not_lt.mpr hge)
  · constructor
    · simp only [if_neg hlt]
      constructor
      · intro h
        cases hr : treinar_core (dfRecente rows meses) features fp with
        | error e => rw [hr] at h; exact absurd h (by simp)
        | ok v => rw [hr] at h; exact absurd h (by simp)
      · intro h; exact absurd h hlt
    · intro _
      simp only [if_neg hlt]
      cases hr : treinar_core (dfRecente rows meses) features fp with
      | error e => right; exact ⟨e, rfl⟩
      | ok v => left; exact ⟨v.1, v.2.1, v.2.2, rfl⟩

/-- Witness for C6 at concrete inputs: one prepared row is insufficient
against a minimum of 5, and against a minimum of 1 the evaluator proceeds to
train (here the single-class slice surfaces as an exception, not as the
insufficient triple). -/
theorem C6_insufficient_iff_witness :
    treinar_avaliar rowsC6 [] 3 5 fpZero = Except.ok (none, none, none) ∧
    ((∃ a f r : ℚ, treinar_avaliar rowsC6 [] 3 1 fpZero = Except.ok (some a, some f, some r)) ∨
      (∃ e : String, treinar_avaliar rowsC6 [] 3 1 fpZero = Except.error e)) :=
  ⟨(C6_insufficient_iff rowsC6 [] 3 5 fpZero).1.mpr (by decide),
   (C6_insufficient_iff rowsC6 [] 3 1 fpZero).2 (by decide)⟩

/-- C1 (counterexample): on a clean two-row, one-instrument dataset the
prepared result keeps both rows — the instrument's last chronological row
(date 2) is present, labelled `Target = 0`, not excluded as the claim
states. -/
theorem C1_last_row_retained_counterexample :
    (preparar_dados dfC1 (["f"]) stdColId).1 =
      [⟨some 1, "A", some (Fv.fin 10), [("f", some (Fv.fin 1))], 1⟩,
       ⟨some 2, "A", some (Fv.fin 20), [("f", some (Fv.fin 2))], 0⟩] ∧
    (⟨some 2, "A", some (Fv.fin 20), [("f", some (Fv.fin 2))], 0⟩ : PRow)
      ∈ (preparar_dados dfC1 (["f"]) stdColId).1 := by
  constructor <;> decide

/-- C1 (amended): the labelling step excludes no row — stripping the Target
column recovers exactly the rows that survived cleaning and standardization —
and every prepared row with no later same-group row (each group's last
stored row) is retained with `Target = 0`, because its shifted neighbour is
missing and a missing comparison is false. -/
theorem C1_last_row_label_amended (df : DataFrame) (features : List String)
    (σ : List (Option Fv) → ℕ → Option Fv) :
    ((preparar_dados df features σ).1.map
        (fun p => (⟨p.date, p.ticker, p.adjClose, p.feats⟩ : Row)))
      = standardize σ (featuresValidas df features)
          (dropInf (featuresValidas df features)
            (df.rows.filter (rowComplete (featuresValidas df features)))) ∧
    ∀ (i : ℕ) (p : PRow), ((preparar_dados df features σ).1)[i]? = some p →
      (∀ q ∈ ((preparar_dados df features σ).1).drop (i + 1), q.ticker ≠ p.ticker) →
      p.target = 0 := by
  constructor
  · exact addTarget_toRow _
  · intro i p hp hnone
    have hcf := prepared_target
      (standardize σ (featuresValidas df features)
        (dropInf (featuresValidas df features)
          (df.rows.filter (rowComplete (featuresValidas df features))))) i p hp
    have hfn : ((addTarget (standardize σ (featuresValidas df features)
        (dropInf (featuresValidas df features)
          (df.rows.filter (rowComplete (featuresValidas df features)))))).drop (i + 1)).find?
          (fun x => x.ticker == p.ticker) = none :=
      List.find?_eq_none.mpr (fun q hq => by simpa using hnone q hq)
    rw [hfn] at hcf
    exact hcf.trans rfl

/-- Witness for C1 (amended): the second (last) prepared row of the concrete
two-row dataset has no later same-group row and carries label 0. -/
theorem C1_last_row_label_amended_witness :
    (⟨some 2, "A", some (Fv.fin 20), [("f", some (Fv.fin 2))], 0⟩ : PRow).target = 0 :=
  (C1_last_row_label_amended dfC1 (["f"]) stdColId).2 1 _ (by decide) (by decide)

/-- C3 (counterexample): a row whose date fails to parse (NaT) but whose
feature and price cells are complete survives preparation — the prepared
dataset contains a row with a missing date, contradicting the claim that
such rows are dropped at the missing-value step. -/
theorem C3_missing_date_counterexample :
    (preparar_dados dfC3 (["f"]) stdColId).1 =
      [⟨none, "A", some (Fv.fin 5), [("f", some (Fv.fin 1))], 0⟩] ∧
    ((preparar_dados dfC3 (["f"]) stdColId).1.any (fun p => p.date == none)) = true := by
  constructor <;> decide

/-- C3 (amended): the missing-value drop consults only the valid feature
cells and the price cell, never the date: any raw row complete in those
cells and free of infinities survives preparation with its date, ticker and
price unchanged — in particular rows with unparsable (missing) dates are
retained, not dropped. -/
theorem C3_missing_date_amended (df : DataFrame) (features : List String)
    (σ : List (Option Fv) → ℕ → Option Fv) (r : Row) (hr : r ∈ df.rows)
    (hc : rowComplete (featuresValidas df features) r = true)
    (hi : hasInfVal (featuresValidas df features) r = false) :
    ∃ p ∈ (preparar_dados df features σ).1,
      p.date = r.date ∧ p.ticker = r.ticker ∧ p.adjClose = r.adjClose := by
  have h1 : r ∈ df.rows.filter (rowComplete (featuresValidas df features)) :=
    List.mem_filter.mpr ⟨hr, hc⟩
  have h2 : r ∈ dropInf (featuresValidas df features)
      (df.rows.filter (rowComplete (featuresValidas df features))) := by
    unfold dropInf
    by_cases hany : (df.rows.filter (rowComplete (featuresValidas df features))).any
        (hasInfVal (featuresValidas df features)) = true
    · rw [if_pos hany]
      exact List.mem_filter.mpr ⟨h1, by rw [hi]; rfl⟩
    · rw [if_neg hany]; exact h1
  obtain ⟨k, hk⟩ := List.mem_iff_getElem?.mp h2
  have h3 := standardize_fields σ (featuresValidas df features)
    (dropInf (featuresValidas df features)
      (df.rows.filter (rowComplete (featuresValidas df features)))) k
  rw [hk] at h3
  cases hsk : (standardize σ (featuresValidas df features)
      (dropInf (featuresValidas df features)
        (df.rows.filter (rowComplete (featuresValidas df features)))))[k]? with
  | none => rw [hsk] at h3; exact absurd h3 (by simp)
  | some r3 =>
      rw [hsk] at h3
      have htriple : (r3.date, r3.ticker, r3.adjClose) = (r.date, r.ticker, r.adjClose) := by
        simpa using h3
      have e1 := congrArg Prod.fst htriple
      have e2 := congrArg (fun t : Option ℤ × String × Option Fv => t.2.1) htriple
      have e3 := congrArg (fun t : Option ℤ × String × Option Fv => t.2.2) htriple
      have h4 : ((preparar_dados df features σ).1)[k]? =
          some ⟨r3.date, r3.ticker, r3.adjClose, r3.feats,
            targetOf r3 ((standardize σ (featuresValidas df features)
              (dropInf (featuresValidas df features)
                (df.rows.filter (rowComplete (featuresValidas df features))))).drop (k + 1))⟩ := by
        show (addTarget (standardize σ (featuresValidas df features)
          (dropInf (featuresValidas df features)
            (df.rows.filter (rowComplete (featuresValidas df features))))))[k]? = _
        rw [addTarget_getElem?, hsk]
        rfl
      exact ⟨_, List.getElem?_mem h4, e1, e2, e3⟩

/-- Witness for C3 (amended): the missing-date row of the concrete dataset
survives with its missing date. -/
theorem C3_missing_date_amended_witness :
    ∃ p ∈ (preparar_dados dfC3 (["f"]) stdColId).1,
      p.date = (⟨none, "A", some (Fv.fin 5), [("f", some (Fv.fin 1))]⟩ : Row).date ∧
      p.ticker = (⟨none, "A", some (Fv.fin 5), [("f", some (Fv.fin 1))]⟩ : Row).ticker ∧
      p.adjClose = (⟨none, "A", some (Fv.fin 5), [("f", some (Fv.fin 1))]⟩ : Row).adjClose :=
  C3_missing_date_amended dfC3 (["f"]) stdColId
    ⟨none, "A", some (Fv.fin 5), [("f", some (Fv.fin 1))]⟩
    (by decide) (by decide) (by decide)

/-- C4 (counterexample): with a group stored in reverse chronological order,
the code labels the first stored row 1 (its next stored neighbour has a
greater price), while the chronological rule of the claim yields 0 (the row
is chronologically last, having the latest date): `Target` follows frame
order, not chronological order. -/
theorem C4_chronological_counterexample :
    ((preparar_dados dfC4 (["f"]) stdColId).1)[0]? =
      some ⟨some 2, "A", some (Fv.fin 10), [("f", some (Fv.fin 1))], 1⟩ ∧
    targetSpecChron (preparar_dados dfC4 (["f"]) stdColId).1
      ⟨some 2, "A", some (Fv.fin 10), [("f", some (Fv.fin 1))], 1⟩ = 0 := by
  constructor <;> decide

/-- C4 (amended): `Target` compares against the next row of the same group
in stored frame order; when every group's rows are stored in strictly
increasing chronological order, this coincides with the claim: the label is
1 exactly when the chronologically next same-group adjusted close is
strictly greater than the current one, else 0. -/
theorem C4_target_chronological_amended (df : DataFrame) (features : List String)
    (σ : List (Option Fv) → ℕ → Option Fv)
    (hs : GroupSorted (preparar_dados df features σ).1) :
    ∀ (i : ℕ) (p : PRow), ((preparar_dados df features σ).1)[i]? = some p →
      p.target = targetSpecChron (preparar_dados df features σ).1 p := by
  intro i p hp
  have h1 := prepared_target
    (standardize σ (featuresValidas df features)
      (dropInf (featuresValidas df features)
        (df.rows.filter (rowComplete (featuresValidas df features))))) i p hp
  have h2 := code_eq_chron (preparar_dados df features σ).1 hs i p hp
  exact h1.trans h2

/-- Witness for C4 (amended): on the sorted two-row dataset the stored label
of the first row equals the chronological label. -/
theorem C4_target_chronological_amended_witness :
    (⟨some 1, "A", some (Fv.fin 10), [("f", some (Fv.fin 1))], 1⟩ : PRow).target
      = targetSpecChron (preparar_dados dfC1 (["f"]) stdColId).1
          ⟨some 1, "A", some (Fv.fin 10), [("f", some (Fv.fin 1))], 1⟩ :=
  C4_target_chronological_amended dfC1 (["f"]) stdColId (by decide) 0 _ (by decide)

/-! Lemmas about the window sweep of one dataset. -/

/-- When every window of the list evaluates to the insufficient triple, the
sweep completes and leaves the tracker untouched. -/
theorem varrer_insufficient (name : String) (rows : List PRow) (feats : List String)
    (fp : FitPredict) :
    ∀ (janelas : List ℕ) (b : Best),
      (∀ m ∈ janelas, treinar_avaliar rows feats m 100 fp = Except.ok (none, none, none)) →
      (varrer_janelas name rows feats fp janelas b).2 = (b, true) := by
  intro janelas
  induction janelas with
  | nil => intro b _; rfl
  | cons m resto ih =>
      intro b h
      have hm := h m (List.mem_cons_self m resto)
      show (varrer_janelas name rows feats fp (m :: resto) b).2 = (b, true)
      unfold varrer_janelas
      rw [hm]
      show (varrer_janelas name rows feats fp resto
        (passo_janela b (none, none, none) (formatar_nome_janela m))).2 = (b, true)
      exact ih b (fun m2 hm2 => h m2 (List.mem_cons_of_mem m hm2))

/-- When every window evaluation returns (no exception), the sweep completes
and appends exactly one metric row per window, in window order, all carrying
the dataset's name. -/
theorem varrer_all_ok (name : String) (rows : List PRow) (feats : List String)
    (fp : FitPredict) :
    ∀ (janelas : List ℕ) (b : Best),
      (∀ m ∈ janelas, ∃ t, treinar_avaliar rows feats m 100 fp = Except.ok t) →
      (varrer_janelas name rows feats fp janelas b).2.2 = true ∧
      (varrer_janelas name rows feats fp janelas b).1.length = janelas.length ∧
      (varrer_janelas name rows feats fp janelas b).1.map (fun w => w.janela)
        = janelas.map formatar_nome_janela ∧
      (varrer_janelas name rows feats fp janelas b).1.map (fun w => w.dataset)
        = janelas.map (fun _ => name) := by
  intro janelas
  induction janelas with
  | nil => intro b _; exact ⟨rfl, rfl, rfl, rfl⟩
  | cons m resto ih =>
      intro b h
      obtain ⟨t, ht⟩ := h m (List.mem_cons_self m resto)
      have hv : varrer_janelas name rows feats fp (m :: resto) b
          = (⟨name, formatar_nome_janela m, t.2.2, t.1, t.2.1⟩ ::
              (varrer_janelas name rows feats fp resto
                (passo_janela b t (formatar_nome_janela m))).1,
             (varrer_janelas name rows feats fp resto
                (passo_janela b t (formatar_nome_janela m))).2) := by
        conv_lhs => rw [varrer_janelas]
        rw [ht]
      obtain ⟨h1, h2, h3, h4⟩ := ih (passo_janela b t (formatar_nome_janela m))
        (fun m2 hm2 => h m2 (List.mem_cons_of_mem m hm2))
      rw [hv]
      refine ⟨h1, ?_, ?_, ?_⟩
      · simpa using h2
      · simpa using h3
      · simpa using h4

/-- When the windows before `w` evaluate normally and `w` raises, the sweep
stops at `w`: it appends exactly one metric row per earlier window and the
completion flag is false. -/
theorem varrer_error (name : String) (rows : List PRow) (feats : List String)
    (fp : FitPredict) :
    ∀ (pre : List ℕ) (w : ℕ) (post : List ℕ) (b : Best),
      (∀ m ∈ pre, ∃ t, treinar_avaliar rows feats m 100 fp = Except.ok t) →
      (∃ e, treinar_avaliar rows feats w 100 fp = Except.error e) →
      (varrer_janelas name rows feats fp (pre ++ w :: post) b).1.length = pre.length ∧
      (varrer_janelas name rows feats fp (pre ++ w :: post) b).2.2 = false := by
  intro pre
  induction pre with
  | nil =>
      intro w post b _ herr
      obtain ⟨e, he⟩ := herr
      have hv : varrer_janelas name rows feats fp ([] ++ w :: post) b = ([], b, false) := by
        show varrer_janelas name rows feats fp (w :: post) b = ([], b, false)
        unfold varrer_janelas
        rw [he]
      rw [hv]
      exact ⟨rfl, rfl⟩
  | cons m resto ih =>
      intro w post b hpre herr
      obtain ⟨t, ht⟩ := hpre m (List.mem_cons_self m resto)
      have hv : varrer_janelas name rows feats fp ((m :: resto) ++ w :: post) b
          = (⟨name, formatar_nome_janela m, t.2.2, t.1, t.2.1⟩ ::
              (varrer_janelas name rows feats fp (resto ++ w :: post)
                (passo_janela b t (formatar_nome_janela m))).1,
             (varrer_janelas name rows feats fp (resto ++ w :: post)
                (passo_janela b t (formatar_nome_janela m))).2) := by
        show varrer_janelas name rows feats fp (m :: (resto ++ w :: post)) b = _
        conv_lhs => rw [varrer_janelas]
        rw [ht]
      obtain ⟨h1, h2⟩ := ih w post (passo_janela b t (formatar_nome_janela m))
        (fun m2 hm2 => hpre m2 (List.mem_cons_of_mem m hm2)) herr
      rw [hv]
      exact ⟨by simpa using h1, h2⟩

/-- `roc_auc_score` raises the single-class ValueError when all true labels
agree. -/
theorem roc_auc_single_class (yTrue : List ℕ) (probs : List ℚ)
    (h : (∀ y ∈ yTrue, y = 0) ∨ (∀ y ∈ yTrue, y = 1)) :
    roc_auc_score yTrue probs = Except.error rocSingleClassMsg := by
  simp only [roc_auc_score]
  rcases h with h0 | h1
  · have hpos : (yTrue.zip probs).filter (fun ab => ab.1 == 1) = [] := by
      apply List.filter_eq_nil_iff.mpr
      intro ab hab hbe
      have hmem := (List.of_mem_zip hab).1
      have hz := h0 ab.1 hmem
      rw [hz] at hbe
      exact absurd hbe (by simp)
    rw [hpos]
    rfl
  · have hneg : (yTrue.zip probs).filter (fun ab => ab.1 != 1) = [] := by
      apply List.filter_eq_nil_iff.mpr
      intro ab hab hbe
      have hmem := (List.of_mem_zip hab).1
      have hz := h1 ab.1 hmem
      rw [hz] at hbe
      exact absurd hbe (by simp)
    rw [hneg]
    have hor : ∀ b : Bool, (b || true) = true := fun b => Bool.or_true b
    cases hb : (((yTrue.zip probs).filter (fun ab => ab.1 == 1)).map (fun ab => ab.2)).isEmpty
    · rfl
    · rfl

/-- A single-class test slice makes `treinar_core` raise. -/
theorem treinar_core_single_class (recente : List PRow) (features : List String)
    (fp : FitPredict)
    (h : (∀ y ∈ (recente.drop (recente.length - (recente.length + 4) / 5)).map PRow.target,
            y = 0) ∨
         (∀ y ∈ (recente.drop (recente.length - (recente.length + 4) / 5)).map PRow.target,
            y = 1)) :
    treinar_core recente features fp = Except.error rocSingleClassMsg := by
  simp only [treinar_core]
  rw [roc_auc_single_class _ _ h]

/-- C2 (counterexample): on a three-row dataset every candidate window is
insufficient, yet the appended best row is not all-absent: the window label
is absent but the ROC-AUC, accuracy and F1 cells hold the initial numeric
zeros, not absent values. -/
theorem C2_all_insufficient_counterexample :
    (∀ m ∈ janelas_meses,
      treinar_avaliar (preparar_dados dsSmall.df (["f"]) stdColId).1
        (preparar_dados dsSmall.df (["f"]) stdColId).2 m 100 fpZero
        = Except.ok (none, none, none)) ∧
    (processar_dataset dsSmall (["f"]) stdColId fpZero janelas_meses).2
      = some ⟨"a.csv", none, some 0, some 0, some 0⟩ := by
  constructor <;> decide

/-- C2 (amended): for any dataset that passes validation and whose every
candidate window evaluates to the insufficient triple, the appended
BestWindowResult row has an absent window label but explicit zero values
(the tracker's initial state) for ROC-AUC, accuracy and F1. -/
theorem C2_all_insufficient_amended (ds : Dataset) (features : List String)
    (σ : List (Option Fv) → ℕ → Option Fv) (fp : FitPredict) (janelas : List ℕ)
    (hval : ¬((preparar_dados ds.df features σ).2.length = 0 ∨
      (preparar_dados ds.df features σ).1.length = 0))
    (hins : ∀ m ∈ janelas,
      treinar_avaliar (preparar_dados ds.df features σ).1
        (preparar_dados ds.df features σ).2 m 100 fp = Except.ok (none, none, none)) :
    (processar_dataset ds features σ fp janelas).2
      = some ⟨ds.name, none, some 0, some 0, some 0⟩ := by
  unfold processar_dataset
  rw [if_neg hval]
  have hv := varrer_insufficient ds.name (preparar_dados ds.df features σ).1
    (preparar_dados ds.df features σ).2 fp janelas bestInit hins
  rw [hv]
  rfl

/-- Witness for C2 (amended) at the concrete three-row dataset. -/
theorem C2_all_insufficient_amended_witness :
    (processar_dataset dsSmall (["f"]) stdColId fpZero ([3, 6])).2
      = some ⟨"a.csv", none, some 0, some 0, some 0⟩ :=
  C2_all_insufficient_amended dsSmall (["f"]) stdColId fpZero ([3, 6])
    (by decide) (by decide)

/-- C8 (counterexample): the 105-row dataset passes validation (one valid
feature, 105 prepared rows), yet for the single candidate window no
WindowMetric row at all is appended — the single-class exception aborts the
attempt before the append — so the table does not hold one row per
(dataset, window) pair. -/
theorem C8_metric_rows_counterexample :
    (preparar_dados dsBig.df (["f"]) stdColId).2.length = 1 ∧
    (preparar_dados dsBig.df (["f"]) stdColId).1.length = 105 ∧
    (processar_dataset dsBig (["f"]) stdColId fpZero ([3])).1 = [] ∧
    (processar_dataset dsBig (["f"]) stdColId fpZero ([3])).2 = none := by
  refine ⟨by decide, by decide, by decide, by decide⟩

/-- C8 (amended): for every dataset that passes validation and whose window
evaluations all return without raising (insufficient-data attempts
included), exactly one WindowMetric row is appended per candidate window, in
window iteration order, each carrying the dataset's name, and a best row is
appended; an attempt that raises instead appends no row and ends the
dataset's sweep. -/
theorem C8_metric_rows_amended (ds : Dataset) (features : List String)
    (σ : List (Option Fv) → ℕ → Option Fv) (fp : FitPredict) (janelas : List ℕ)
    (hval : ¬((preparar_dados ds.df features σ).2.length = 0 ∨
      (preparar_dados ds.df features σ).1.length = 0))
    (hok : ∀ m ∈ janelas, ∃ t,
      treinar_avaliar (preparar_dados ds.df features σ).1
        (preparar_dados ds.df features σ).2 m 100 fp = Except.ok t) :
    (processar_dataset ds features σ fp janelas).1.length = janelas.length ∧
    (processar_dataset ds features σ fp janelas).1.map (fun w => w.janela)
      = janelas.map formatar_nome_janela ∧
    (processar_dataset ds features σ fp janelas).1.map (fun w => w.dataset)
      = janelas.map (fun _ => ds.name) ∧
    (processar_dataset ds features σ fp janelas).2.isSome = true := by
  obtain ⟨h1, h2, h3, h4⟩ := varrer_all_ok ds.name (preparar_dados ds.df features σ).1
    (preparar_dados ds.df features σ).2 fp janelas bestInit hok
  unfold processar_dataset
  rw [if_neg hval]
  rw [if_pos h1]
  exact ⟨h2, h3, h4, rfl⟩

/-- Witness for C8 (amended): the three-row dataset completes all six
candidate windows (each insufficient) with six metric rows in order. -/
theorem C8_metric_rows_amended_witness :
    (processar_dataset dsSmall (["f"]) stdColId fpZero janelas_meses).1.length
        = janelas_meses.length ∧
    (processar_dataset dsSmall (["f"]) stdColId fpZero janelas_meses).1.map
        (fun w => w.janela) = janelas_meses.map formatar_nome_janela ∧
    (processar_dataset dsSmall (["f"]) stdColId fpZero janelas_meses).1.map
        (fun w => w.dataset) = janelas_meses.map (fun _ => "a.csv") ∧
    (processar_dataset dsSmall (["f"]) stdColId fpZero janelas_meses).2.isSome = true := by
  have hins : ∀ m ∈ janelas_meses,
      treinar_avaliar (preparar_dados dsSmall.df (["f"]) stdColId).1
        (preparar_dados dsSmall.df (["f"]) stdColId).2 m 100 fpZero
        = Except.ok (none, none, none) := by decide
  exact C8_metric_rows_amended dsSmall (["f"]) stdColId fpZero janelas_meses
    (by decide) (fun m hm => ⟨(none, none, none), hins m hm⟩)

/-- C10: a single-class test slice makes `treinar_avaliar` raise the ROC-AUC
ValueError rather than return absent metrics, and such an exception during a
dataset's sweep abandons the dataset mid-sweep: metric rows exist exactly
for the windows before the raising one, no best row is appended for the
dataset, and the sweep of the remaining datasets is unaffected. -/
theorem C10_single_class_exception_isolation :
    (∀ (rows : List PRow) (feats : List String) (w mn : ℕ) (fp : FitPredict),
      mn ≤ (dfRecente rows w).length →
      ((∀ y ∈ ((dfRecente rows w).drop
          ((dfRecente rows w).length - ((dfRecente rows w).length + 4) / 5)).map PRow.target,
          y = 0) ∨
       (∀ y ∈ ((dfRecente rows w).drop
          ((dfRecente rows w).length - ((dfRecente rows w).length + 4) / 5)).map PRow.target,
          y = 1)) →
      treinar_avaliar rows feats w mn fp = Except.error rocSingleClassMsg) ∧
    (∀ (ds : Dataset) (features : List String)
        (σ : List (Option Fv) → ℕ → Option Fv) (fp : FitPredict)
        (pre : List ℕ) (w : ℕ) (post : List ℕ) (rest : List Dataset)
        (fmap : List (String × List String)),
      ¬((preparar_dados ds.df features σ).2.length = 0 ∨
        (preparar_dados ds.df features σ).1.length = 0) →
      (∀ m ∈ pre, ∃ t, treinar_avaliar (preparar_dados ds.df features σ).1
          (preparar_dados ds.df features σ).2 m 100 fp = Except.ok t) →
      (∃ e, treinar_avaliar (preparar_dados ds.df features σ).1
          (preparar_dados ds.df features σ).2 w 100 fp = Except.error e) →
      fmap.lookup ds.name = some features →
      (processar_dataset ds features σ fp (pre ++ w :: post)).1.length = pre.length ∧
      (processar_dataset ds features σ fp (pre ++ w :: post)).2 = none ∧
      runSweep σ fp (pre ++ w :: post) fmap (ds :: rest)
        = ((runSweep σ fp (pre ++ w :: post) fmap rest).1,
           (processar_dataset ds features σ fp (pre ++ w :: post)).1
             ++ (runSweep σ fp (pre ++ w :: post) fmap rest).2)) := by
  constructor
  · intro rows feats w mn fp hge h
    unfold treinar_avaliar
    rw [if_neg (not_lt.mpr hge)]
    rw [treinar_core_single_class (dfRecente rows w) feats fp h]
  · intro ds features σ fp pre w post rest fmap hval hpre herr hmap
    obtain ⟨hlen, hflag⟩ := varrer_error ds.name (preparar_dados ds.df features σ).1
      (preparar_dados ds.df features σ).2 fp pre w post bestInit hpre herr
    have hcond : ¬((varrer_janelas ds.name (preparar_dados ds.df features σ).1
        (preparar_dados ds.df features σ).2 fp (pre ++ w :: post) bestInit).2.2 = true) := by
      rw [hflag]; exact Bool.false_ne_true
    have hproc1 : (processar_dataset ds features σ fp (pre ++ w :: post)).1
        = (varrer_janelas ds.name (preparar_dados ds.df features σ).1
            (preparar_dados ds.df features σ).2 fp (pre ++ w :: post) bestInit).1 := by
      unfold processar_dataset
      rw [if_neg hval, if_neg hcond]
    have hproc2 : (processar_dataset ds features σ fp (pre ++ w :: post)).2 = none := by
      unfold processar_dataset
      rw [if_neg hval, if_neg hcond]
    refine ⟨by rw [hproc1]; exact hlen, hproc2, ?_⟩
    show runSweep σ fp (pre ++ w :: post) fmap (ds :: rest) = _
    conv_lhs => rw [runSweep]
    rw [hmap]
    simp only [hproc2, Option.toList_none, List.nil_append]

/-- Witness for C10: on the 105-row constant-price dataset the sole window's
test slice is single-class, the evaluator raises the ROC-AUC error, the
dataset contributes no best row, and the sweep of the remaining (empty)
dataset list is unaffected. -/
theorem C10_single_class_exception_isolation_witness :
    treinar_avaliar (preparar_dados dsBig.df (["f"]) stdColId).1
      (preparar_dados dsBig.df (["f"]) stdColId).2 3 100 fpZero
      = Except.error rocSingleClassMsg ∧
    (processar_dataset dsBig (["f"]) stdColId fpZero ([] ++ 3 :: [])).2 = none ∧
    runSweep stdColId fpZero ([] ++ 3 :: []) ([("big.csv", ["f"])]) [dsBig]
      = ((runSweep stdColId fpZero ([] ++ 3 :: []) ([("big.csv", ["f"])]) []).1,
         (processar_dataset dsBig (["f"]) stdColId fpZero ([] ++ 3 :: [])).1
           ++ (runSweep stdColId fpZero ([] ++ 3 :: []) ([("big.csv", ["f"])]) []).2) := by
  have ha := C10_single_class_exception_isolation.1
    (preparar_dados dsBig.df (["f"]) stdColId).1
    (preparar_dados dsBig.df (["f"]) stdColId).2
    3 100 fpZero (by decide) (Or.inl (by decide))
  have hb := C10_single_class_exception_isolation.2 dsBig (["f"]) stdColId fpZero
    [] 3 [] [] ([("big.csv", ["f"])]) (by decide)
    (fun m hm => absurd hm (List.not_mem_nil m))
    ⟨rocSingleClassMsg, ha⟩ (by decide)
  exact ⟨ha, hb.2.1, hb.2.2⟩

end MLJanela
